import Mathlib

/-!
Shallow embedding of the record-extraction core of the `app_excel`
repository (files `xuatdulieu.py`, `app.py`, `appexcel2.py`,
`app_excel3.py`, `test.py`): text normalisation, line classification,
person/parcel extraction, the record segmenter, and the mixed-encoding
rescue heuristic, together with proofs of the claims about them.

Strings are modelled as Lean `String`/`List Char`; each Python regular
expression is modelled by a hand-rolled matcher that follows the
backtracking behaviour of the specific pattern.
-/

namespace AppExcel

/-! ### Character classes -/

/-- Python `\s` (and `str.isspace`) for the character repertoire of this
domain: ASCII whitespace plus the no-break space. -/
def isWsCh (c : Char) : Bool :=
  c = ' ' || c = '\t' || c = '\n' || c = '\r' ||
  c = '\x0b' || c = '\x0c' || c = ' '

/-- Separator class of `normalize_text`: `\s` together with `'_'`
(`re.sub(r'[_]+', ' ', s)` followed by `re.sub(r'\s+', ' ', s)`). -/
def isSepCh (c : Char) : Bool := isWsCh c || c = '_'

/-- Decimal-digit blocks (Unicode category Nd) beyond ASCII, as range
starts of ten consecutive digits each: Arabic-Indic, Extended
Arabic-Indic, Devanagari, Bengali, Gurmukhi, Gujarati, Oriya, Tamil,
Telugu, Kannada, Malayalam, Thai, Lao, Tibetan, Myanmar, Khmer,
fullwidth. -/
def ndRangeStarts : List Nat :=
  [0x660, 0x6F0, 0x966, 0x9E6, 0xA66, 0xAE6, 0xB66, 0xBE6, 0xC66, 0xCE6,
   0xD66, 0xE50, 0xED0, 0xF20, 0x1040, 0x17E0, 0xFF10]

/-- Python `\d` on `str` is Unicode-aware: every Unicode decimal digit
matches, not only ASCII `0-9`.  Modelled over the `ndRangeStarts`
repertoire. -/
def isDigitCh (c : Char) : Bool :=
  c.isDigit ||
  (0x660 ≤ c.toNat && ndRangeStarts.any fun s => s ≤ c.toNat && c.toNat ≤ s + 9)

/-- The explicit character class `[0-9]`, which unlike `\d` is
ASCII-only even in Python. -/
def isAsciiDigit (c : Char) : Bool := c.isDigit

/-- Python `\w` restricted to the repertoire of this domain: ASCII
alphanumerics, `'_'`, the Latin letter blocks used by Vietnamese
(Latin-1 letters, Latin Extended-A/B, Latin Extended Additional), and
Unicode decimal digits. -/
def isWordCh (c : Char) : Bool :=
  c.isAlphanum || c = '_' ||
  (0xC0 ≤ c.toNat && c.toNat ≤ 0x24F && c.toNat ≠ 0xD7 && c.toNat ≠ 0xF7) ||
  (0x1E00 ≤ c.toNat && c.toNat ≤ 0x1EFF) || isDigitCh c

/-! ### Case mapping (Python `str.lower` / `str.upper` on the
Vietnamese repertoire).  Uppercase/lowercase pairs sit at offset 32 in
ASCII and Latin-1, and at offset 1 in Latin Extended-A/B and Latin
Extended Additional (even = uppercase, odd = lowercase). -/

def charLower (c : Char) : Char :=
  let v := c.toNat
  if 65 ≤ v && v ≤ 90 then Char.ofNat (v + 32)
  else if 0xC0 ≤ v && v ≤ 0xDE && v ≠ 0xD7 then Char.ofNat (v + 32)
  else if (0x100 ≤ v && v ≤ 0x177 && v % 2 = 0) || v = 0x1A0 || v = 0x1AF ||
          (0x1E00 ≤ v && v ≤ 0x1EFE && v % 2 = 0) then Char.ofNat (v + 1)
  else c

def charUpper (c : Char) : Char :=
  let v := c.toNat
  if 97 ≤ v && v ≤ 122 then Char.ofNat (v - 32)
  else if 0xE0 ≤ v && v ≤ 0xFE && v ≠ 0xF7 then Char.ofNat (v - 32)
  else if (0x101 ≤ v && v ≤ 0x178 && v % 2 = 1) || v = 0x1A1 || v = 0x1B0 ||
          (0x1E01 ≤ v && v ≤ 0x1EFF && v % 2 = 1) then Char.ofNat (v - 1)
  else c

def lowerList (l : List Char) : List Char := l.map charLower

def upperList (l : List Char) : List Char := l.map charUpper

/-! ### Accent stripping.

`strip_accents` in the Python sources is `unicodedata.normalize("NFD", s)`
with combining marks dropped, then `Đ/đ ↦ D/d`.  On the Vietnamese
letter repertoire this maps each precomposed accented letter to its base
letter; the tables below list that repertoire explicitly. -/

def accLowerA : List Char := "àáạảãâầấậẩẫăằắặẳẵ".data
def accUpperA : List Char := "ÀÁẠẢÃÂẦẤẬẨẪĂẰẮẶẲẴ".data
def accLowerE : List Char := "èéẹẻẽêềếệểễ".data
def accUpperE : List Char := "ÈÉẸẺẼÊỀẾỆỂỄ".data
def accLowerI : List Char := "ìíịỉĩ".data
def accUpperI : List Char := "ÌÍỊỈĨ".data
def accLowerO : List Char := "òóọỏõôồốộổỗơờớợởỡ".data
def accUpperO : List Char := "ÒÓỌỎÕÔỒỐỘỔỖƠỜỚỢỞỠ".data
def accLowerU : List Char := "ùúụủũưừứựửữ".data
def accUpperU : List Char := "ÙÚỤỦŨƯỪỨỰỬỮ".data
def accLowerY : List Char := "ỳýỵỷỹ".data
def accUpperY : List Char := "ỲÝỴỶỸ".data

def stripAccentChar (c : Char) : Char :=
  if accLowerA.contains c then 'a'
  else if accUpperA.contains c then 'A'
  else if accLowerE.contains c then 'e'
  else if accUpperE.contains c then 'E'
  else if accLowerI.contains c then 'i'
  else if accUpperI.contains c then 'I'
  else if accLowerO.contains c then 'o'
  else if accUpperO.contains c then 'O'
  else if accLowerU.contains c then 'u'
  else if accUpperU.contains c then 'U'
  else if accLowerY.contains c then 'y'
  else if accUpperY.contains c then 'Y'
  else if c = 'đ' then 'd'
  else if c = 'Đ' then 'D'
  else c

/-- `strip_accents` of `xuatdulieu.py` / `appexcel2.py` / `app_excel3.py`. -/
def strip_accents (l : List Char) : List Char := l.map stripAccentChar

/-! ### `normalize_text`

```python
def normalize_text(s):
    s = s.replace(' ', ' ')
    s = re.sub(r'[_]+', ' ', s)
    s = re.sub(r'\s+', ' ', s).strip()
    return s
```

Composite effect: every maximal run of separator characters
(whitespace, NBSP, `'_'`) becomes a single space, and leading/trailing
runs are removed — i.e. split into separator-free words and re-join
with single spaces. -/

def wordsGo (acc : List Char) : List Char → List (List Char)
  | [] => if acc = [] then [] else [acc.reverse]
  | c :: cs =>
      if isSepCh c then
        if acc = [] then wordsGo [] cs else acc.reverse :: wordsGo [] cs
      else wordsGo (c :: acc) cs

def wordsOf (l : List Char) : List (List Char) := wordsGo [] l

lemma wordsGo_nil (acc : List Char) :
    wordsGo acc [] = if acc = [] then [] else [acc.reverse] := rfl

lemma wordsGo_cons (acc : List Char) (c : Char) (cs : List Char) :
    wordsGo acc (c :: cs) =
      if isSepCh c then
        if acc = [] then wordsGo [] cs else acc.reverse :: wordsGo [] cs
      else wordsGo (c :: acc) cs := rfl

def unwords : List (List Char) → List Char
  | [] => []
  | [w] => w
  | w :: ws => w ++ ' ' :: unwords ws

def normList (l : List Char) : List Char := unwords (wordsOf l)

def normalize_text (s : String) : String := String.mk (normList s.data)

/-! #### Idempotence of `normalize_text` -/

lemma wordsGo_sepFree (acc : List Char) (hacc : ∀ c ∈ acc, isSepCh c = false) :
    ∀ l, ∀ w ∈ wordsGo acc l, w ≠ [] ∧ ∀ c ∈ w, isSepCh c = false := by
  intro l
  induction l generalizing acc hacc with
  | nil =>
      intro w hw
      unfold wordsGo at hw
      by_cases h : acc = []
      · simp [h] at hw
      · simp [h] at hw
        subst hw
        refine ⟨by simpa using h, ?_⟩
        intro c hc
        exact hacc c (by simpa using hc)
  | cons c cs ih =>
      intro w hw
      unfold wordsGo at hw
      by_cases hsep : isSepCh c
      · simp [hsep] at hw
        by_cases h : acc = []
        · simp [h] at hw
          exact ih [] (by simp) w hw
        · simp [h] at hw
          rcases hw with hw | hw
          · subst hw
            refine ⟨by simpa using h, ?_⟩
            intro d hd
            exact hacc d (by simpa using hd)
          · exact ih [] (by simp) w hw
      · simp [hsep] at hw
        refine ih (c :: acc) ?_ w hw
        intro d hd
        rcases List.mem_cons.mp hd with h | h
        · subst h; simpa using hsep
        · exact hacc d h

lemma wordsOf_sepFree (l : List Char) :
    ∀ w ∈ wordsOf l, w ≠ [] ∧ ∀ c ∈ w, isSepCh c = false :=
  wordsGo_sepFree [] (by simp) l

lemma wordsGo_append_word (w : List Char) (hw : ∀ c ∈ w, isSepCh c = false) :
    ∀ (acc l : List Char), wordsGo acc (w ++ l) = wordsGo (w.reverse ++ acc) l := by
  induction w with
  | nil => intro acc l; simp
  | cons c cs ih =>
      intro acc l
      have hc : isSepCh c = false := hw c (by simp)
      have hcs : ∀ d ∈ cs, isSepCh d = false := fun d hd => hw d (by simp [hd])
      rw [List.cons_append, wordsGo_cons, if_neg (by simp [hc])]
      rw [ih hcs (c :: acc) l]
      simp

lemma wordsOf_unwords (W : List (List Char))
    (hW : ∀ w ∈ W, w ≠ [] ∧ ∀ c ∈ w, isSepCh c = false) :
    wordsOf (unwords W) = W := by
  induction W with
  | nil => rfl
  | cons w ws ih =>
      have hw := hW w (by simp)
      have hws : ∀ v ∈ ws, v ≠ [] ∧ ∀ c ∈ v, isSepCh c = false := by
        intro v hv; exact hW v (by simp [hv])
      cases ws with
      | nil =>
          show wordsGo [] (unwords [w]) = [w]
          have h1 : wordsGo [] (w ++ []) = wordsGo (w.reverse ++ []) [] :=
            wordsGo_append_word w hw.2 [] []
          rw [show unwords [w] = w ++ [] by simp [unwords], h1, wordsGo_nil]
          simp [hw.1]
      | cons v vs =>
          show wordsGo [] (unwords (w :: v :: vs)) = w :: v :: vs
          have h1 : unwords (w :: v :: vs) = w ++ (' ' :: unwords (v :: vs)) := rfl
          rw [h1, wordsGo_append_word w hw.2 [] (' ' :: unwords (v :: vs)), wordsGo_cons]
          have hne : ¬ (w.reverse ++ [] = []) := by simpa using hw.1
          rw [if_pos (by decide : isSepCh ' ' = true), if_neg hne]
          have hrec : wordsGo [] (unwords (v :: vs)) = v :: vs := ih hws
          rw [hrec]
          simp

lemma normList_idem (l : List Char) : normList (normList l) = normList l := by
  unfold normList
  rw [show wordsOf (unwords (wordsOf l)) = wordsOf l from
        wordsOf_unwords (wordsOf l) (wordsOf_sepFree l)]

lemma normalize_text_idem (s : String) :
    normalize_text (normalize_text s) = normalize_text s := by
  unfold normalize_text
  simp [normList_idem]

/-- A line whose characters are all separator characters normalises to
the empty string. -/
lemma normList_allSep (l : List Char) (h : ∀ c ∈ l, isSepCh c = true) :
    normList l = [] := by
  have : wordsOf l = [] := by
    unfold wordsOf
    induction l with
    | nil => rfl
    | cons c cs ih =>
        have hc := h c (by simp)
        rw [wordsGo_cons, if_pos hc, if_pos rfl]
        exact ih fun d hd => h d (by simp [hd])
  unfold normList
  rw [this]
  rfl

/-! ### Matching combinators -/

/-- Consume an exact literal prefix. -/
def stripLit : List Char → List Char → Option (List Char)
  | [], l => some l
  | _ :: _, [] => none
  | p :: ps, c :: cs => if c = p then stripLit ps cs else none

/-- Consume a literal prefix, case-insensitively (Python `re.IGNORECASE`). -/
def stripLitCi : List Char → List Char → Option (List Char)
  | [], l => some l
  | _ :: _, [] => none
  | p :: ps, c :: cs => if charLower c = charLower p then stripLitCi ps cs else none

def skipWs (l : List Char) : List Char := l.dropWhile isWsCh

/-- Python `\b` looking right: the next character (if any) is not a word
character.  (The character to the left is a word character at every use
site below.) -/
def wordBoundary : List Char → Bool
  | [] => true
  | c :: _ => !isWordCh c

/-- Python `\b` looking left, given the previous character. -/
def prevNonWord : Option Char → Bool
  | none => true
  | some c => !isWordCh c

/-- Leftmost-match search: try the matcher at every suffix, left to
right (the semantics of `re.search`). -/
def scanSuffixes (f : List Char → Option α) : List Char → Option α
  | [] => f []
  | c :: cs => (f (c :: cs)).orElse fun _ => scanSuffixes f cs

/-- Leftmost-match search that also tracks the previous character, for
patterns with a leading `\b`. -/
def scanPrev (f : Option Char → List Char → Option α) :
    Option Char → List Char → Option α
  | prev, [] => f prev []
  | prev, c :: cs => (f prev (c :: cs)).orElse fun _ => scanPrev f (some c) cs

/-- All suffixes obtained by consuming a maximal run of whitespace and
then giving characters back one at a time — the candidate positions a
greedy `\s*` offers to its continuation, in backtracking order. -/
def wsBacktrack (r : List Char) : List (List Char) :=
  let k := (r.takeWhile isWsCh).length
  (List.range (k + 1)).map fun i => r.drop (k - i)

/-! ### Section headers (`xuatdulieu.py` lines 69–81)

`is_section_header_i`: folded line matches
`^I\s*[-–—]?\s*NGUOI\s*SU\s*DUNG\s*DAT\b`, and `is_section_header_ii`:
`^II\s*[-–—]?\s*THUA\s*DAT\b`, both on
`strip_accents(normalize_text(s)).upper()`. -/

def isDashCh (c : Char) : Bool := c = '-' || c = '–' || c = '—'

/-- `\s*[-–—]?\s*` -/
def skipDashWs (r : List Char) : List Char :=
  let r1 := skipWs r
  let r2 := match r1 with
    | c :: t => if isDashCh c then t else r1
    | [] => r1
  skipWs r2

def litChainB : List (List Char) → List Char → Bool
  | [], r => wordBoundary r
  | w :: ws, r =>
      match stripLit w (skipWs r) with
      | none => false
      | some r2 => litChainB ws r2

def matchHeaderI : List Char → Bool
  | 'I' :: r =>
      match stripLit "NGUOI".data (skipDashWs r) with
      | none => false
      | some r2 => litChainB ["SU".data, "DUNG".data, "DAT".data] r2
  | _ => false

def matchHeaderII : List Char → Bool
  | 'I' :: 'I' :: r =>
      match stripLit "THUA".data (skipDashWs r) with
      | none => false
      | some r2 => litChainB ["DAT".data] r2
  | _ => false

def foldedUpper (s : String) : List Char :=
  upperList (strip_accents (normalize_text s).data)

def foldedLower (s : String) : List Char :=
  lowerList (strip_accents (normalize_text s).data)

def is_section_header_i (s : String) : Bool := matchHeaderI (foldedUpper s)

def is_section_header_ii (s : String) : Bool := matchHeaderII (foldedUpper s)

/-! ### Address lines (`xuatdulieu.py` lines 85–109)

`is_address_line`: folded lower-case line matches
`^(?:dia\s*chi(?:\s*thuong\s*tru)?|d\s*\/\s*c|(?:noi\s*)?thuong\s*tru)\b`. -/

/-- `thuong\s*tru` followed by `\b`. -/
def thuongTruB (r : List Char) : Bool :=
  match stripLit "thuong".data r with
  | none => false
  | some r1 =>
      match stripLit "tru".data (skipWs r1) with
      | none => false
      | some r2 => wordBoundary r2

def addrAlt1 (l : List Char) : Bool :=
  match stripLit "dia".data l with
  | none => false
  | some r1 =>
      match stripLit "chi".data (skipWs r1) with
      | none => false
      | some r2 => thuongTruB (skipWs r2) || wordBoundary r2

def addrAlt2 (l : List Char) : Bool :=
  match stripLit "d".data l with
  | none => false
  | some r1 =>
      match skipWs r1 with
      | '/' :: r2 =>
          match stripLit "c".data (skipWs r2) with
          | none => false
          | some r3 => wordBoundary r3
      | _ => false

def addrAlt3 (l : List Char) : Bool :=
  (match stripLit "noi".data l with
   | none => false
   | some r1 => thuongTruB (skipWs r1)) ||
  thuongTruB l

def is_address_line (s : String) : Bool :=
  let f := foldedLower s
  addrAlt1 f || addrAlt2 f || addrAlt3 f

/-! ### `extract_address` (`xuatdulieu.py` lines 93–109)

First a diacritic-aware search
`(?:địa\s*ch[ỉi](?:\s*thường\s*trú)?|đ\s*\/\s*c|(?:nơi\s*)?thường\s*trú)\s*[:\-]?\s*(.+)$`
on the normalised line (IGNORECASE); if it fails, the same shape on the
folded lower-case line.  The keyword alternatives yield their possible
end positions in backtracking order; `\s*[:\-]?\s*` then offers
candidate positions for the group `(.+)$`, which needs a non-empty
remainder. -/

/-- Candidate positions after `\s*[:\-]?\s*`, in backtracking order. -/
def tailCands (r : List Char) : List (List Char) :=
  (wsBacktrack r).flatMap fun r1 =>
    (match r1 with
     | c :: t => if c = ':' || c = '-' then wsBacktrack t else []
     | [] => []) ++ wsBacktrack r1

/-- `thường\s*trú` (case-insensitive), returning the rest. -/
def thuongTruVi (r : List Char) : Option (List Char) :=
  match stripLitCi "thường".data r with
  | none => none
  | some r1 => stripLitCi "trú".data (skipWs r1)

/-- End positions of the keyword part of the Vietnamese address
pattern at the current position, in backtracking order. -/
def viAddrKw (l : List Char) : List (List Char) :=
  (match stripLitCi "địa".data l with
   | none => []
   | some r1 =>
      match stripLitCi "ch".data (skipWs r1) with
      | none => []
      | some r2 =>
          match r2 with
          | c :: r3 =>
              if charLower c = 'ỉ' || charLower c = 'i' then
                (match thuongTruVi (skipWs r3) with
                 | some r4 => [r4]
                 | none => []) ++ [r3]
              else []
          | [] => []) ++
  (match stripLitCi "đ".data l with
   | none => []
   | some r1 =>
      match skipWs r1 with
      | '/' :: r2 =>
          match stripLitCi "c".data (skipWs r2) with
          | none => []
          | some r3 => [r3]
      | _ => []) ++
  (match stripLitCi "nơi".data l with
   | none => []
   | some r1 =>
      match thuongTruVi (skipWs r1) with
      | some r2 => [r2]
      | none => []) ++
  (match thuongTruVi l with
   | some r1 => [r1]
   | none => [])

/-- ASCII variant of the keyword part, on the folded lower-case line. -/
def asciiAddrKw (l : List Char) : List (List Char) :=
  (match stripLit "dia".data l with
   | none => []
   | some r1 =>
      match stripLit "chi".data (skipWs r1) with
      | none => []
      | some r2 =>
          (match stripLit "thuong".data (skipWs r2) with
           | none => []
           | some r3 =>
              match stripLit "tru".data (skipWs r3) with
              | none => []
              | some r4 => [r4]) ++ [r2]) ++
  (match stripLit "d".data l with
   | none => []
   | some r1 =>
      match skipWs r1 with
      | '/' :: r2 =>
          match stripLit "c".data (skipWs r2) with
          | none => []
          | some r3 => [r3]
      | _ => []) ++
  (match stripLit "noi".data l with
   | none => []
   | some r1 =>
      (match stripLit "thuong".data (skipWs r1) with
       | none => []
       | some r2 =>
          match stripLit "tru".data (skipWs r2) with
          | none => []
          | some r3 => [r3])) ++
  (match stripLit "thuong".data l with
   | none => []
   | some r1 =>
      match stripLit "tru".data (skipWs r1) with
      | none => []
      | some r2 => [r2])

/-- Try the keyword ends against `\s*[:\-]?\s*(.+)$`: the first
candidate with a non-empty remainder wins. -/
def addrGroup (kwEnds : List (List Char)) : Option (List Char) :=
  kwEnds.findSome? fun r =>
    (tailCands r).findSome? fun g => if g = [] then none else some g

def stripAddrEnds (l : List Char) : List Char :=
  let p : Char → Bool := fun c => c = ' ' || c = '.' || c = ',' || c = '_' || c = '-'
  ((l.dropWhile p).reverse.dropWhile p).reverse

def extract_address (s : String) : String :=
  let sn := (normalize_text s).data
  match scanSuffixes (fun l => addrGroup (viAddrKw l)) sn with
  | some g => String.mk (stripAddrEnds g)
  | none =>
      match scanSuffixes (fun l => addrGroup (asciiAddrKw l)) (lowerList (strip_accents sn)) with
      | some g => String.mk (stripAddrEnds g)
      | none => ""

/-! ### `is_person_like` (`xuatdulieu.py` lines 119–127)

`re.search(r'(CMND|CCCD|CMT)\b', s, I)` or
`re.search(r'\bSinh\s+(?:năm|ngày)\b', s, I)`. -/

def idKwAt (l : List Char) : Option Unit :=
  ["cmnd".data, "cccd".data, "cmt".data].findSome? fun kw =>
    match stripLitCi kw l with
    | none => none
    | some r => if wordBoundary r then some () else none

def hasIdKw (l : List Char) : Bool := (scanSuffixes idKwAt l).isSome

def sinhKwAt (prev : Option Char) (l : List Char) : Option Unit :=
  if !prevNonWord prev then none
  else
    match stripLitCi "sinh".data l with
    | none => none
    | some r1 =>
        if (r1.takeWhile isWsCh) = [] then none
        else
          ["năm".data, "ngày".data].findSome? fun kw =>
            match stripLitCi kw (skipWs r1) with
            | none => none
            | some r2 => if wordBoundary r2 then some () else none

def hasSinhKw (l : List Char) : Bool := (scanPrev sinhKwAt none l).isSome

def is_person_like (s : String) : Bool := hasIdKw s.data || hasSinhKw s.data

/-! ### Person extraction (`xuatdulieu.py` lines 17–39, 147–186 and the
`app.py` variant, lines 9–123)

`RE_ID = \b(\d[\d\s\-.]{7,24}\d)\b` (`app.py`: `\b(\d[\d\s\-]{7,20}\d)\b`),
`RE_DATE = (\d{1,2}[\/\-.]\d{1,2}[\/\-.]\d{2,4})`, and
`HONORIFIC = ^\s*(?:(?:và|va|&)\s*)?(?:hộ\s*(?:ông|bà)|ông|bà|anh|chị|cô|chú|bác|em|mr|mrs|ms|miss)\s*[:\.-]?\s*`. -/

structure Person where
  full_name : String
  birth_year : String
  id_number : String
  issue_date : String
  address : String
deriving DecidableEq, Repr

structure AppPerson where
  full_name : String
  birth_year : String
  id_number : String
  issue_date : String
deriving DecidableEq, Repr

/-- `normalize_id`: strip non-digits; keep only a 9–12-digit result. -/
def normalize_id (token : String) : String :=
  if 9 ≤ (token.data.filter isDigitCh).length ∧
      (token.data.filter isDigitCh).length ≤ 12 then
    String.mk (token.data.filter isDigitCh)
  else ""

/-- Candidate positions a greedy `p*` offers, in backtracking order
(maximal consumption first). -/
def starBacktrack (p : Char → Bool) (r : List Char) : List (List Char) :=
  let k := (r.takeWhile p).length
  (List.range (k + 1)).map fun i => r.drop (k - i)

def takeDigits : Nat → List Char → Option (List Char × List Char)
  | 0, l => some ([], l)
  | n + 1, c :: cs =>
      if isDigitCh c then (takeDigits n cs).map fun (d, r) => (c :: d, r)
      else none
  | _ + 1, [] => none

def isDateSep (c : Char) : Bool := c = '/' || c = '-' || c = '.'

/-- `RE_DATE` at the current position, with the greedy/backtracking
behaviour of `\d{1,2} sep \d{1,2} sep \d{2,4}`; `needB` adds a trailing
`\b`.  Returns the matched text and the rest. -/
def dateCore (needB : Bool) (l : List Char) : Option (List Char × List Char) :=
  [2, 1].findSome? fun k1 =>
    (takeDigits k1 l).bind fun (d1, r1) =>
      match r1 with
      | s1 :: r2 =>
          if isDateSep s1 then
            [2, 1].findSome? fun k2 =>
              (takeDigits k2 r2).bind fun (d2, r3) =>
                match r3 with
                | s2 :: r4 =>
                    if isDateSep s2 then
                      [4, 3, 2].findSome? fun k3 =>
                        (takeDigits k3 r4).bind fun (d3, r5) =>
                          if needB && !wordBoundary r5 then none
                          else some (d1 ++ s1 :: (d2 ++ s2 :: d3), r5)
                    else none
                | [] => none
          else none
      | [] => none

/-! #### Name capture

`^(?:\s*(?:(?:và|va|&)\s*)?(?:hộ\s*(?:ông|bà)|ông|bà|anh|chị|cô|chú|bác|em)\s*[:\.-]?\s*)?`
`([A-ZÀ-ỸĐ][^,\d]+?)\s*(?=,|\bSinh\b|\bCMND\b|\bCCCD\b|\bCMT\b|$)`
with IGNORECASE. -/

/-- `[A-ZÀ-ỸĐ]` under IGNORECASE: the character or one of its case
variants lies in `A–Z` or `À–Ỹ` (U+00C0–U+1EF8). -/
def inNameRange (c : Char) : Bool :=
  (65 ≤ c.toNat && c.toNat ≤ 90) || (0xC0 ≤ c.toNat && c.toNat ≤ 0x1EF8)

def isNameStart (c : Char) : Bool :=
  inNameRange c || inNameRange (charUpper c) || inNameRange (charLower c)

/-- The honorific alternation of the name prefix
(`hộ\s*(?:ông|bà)|ông|bà|anh|chị|cô|chú|bác|em`), case-insensitively;
at most one alternative can match at a given position. -/
def honMatchName (r : List Char) : Option (List Char) :=
  (match stripLitCi "hộ".data r with
   | some r1 =>
      (stripLitCi "ông".data (skipWs r1)).orElse fun _ =>
        stripLitCi "bà".data (skipWs r1)
   | none => none).orElse fun _ =>
    (["ông", "bà", "anh", "chị", "cô", "chú", "bác", "em"] : List String).findSome?
      fun (kw : String) => stripLitCi kw.data r

/-- The `HONORIFIC` alternation (the name alternatives plus
`mr|mrs|ms|miss`, in that order). -/
def honMatchSub (r : List Char) : Option (List Char) :=
  (honMatchName r).orElse fun _ =>
    (["mr", "mrs", "ms", "miss"] : List String).findSome? fun (kw : String) =>
      stripLitCi kw.data r

/-- Positions after the optional name prefix, in backtracking order
(conjunction-present branches first, then conjunction-absent; after the
honorific, the `[:\.-]?` punctuation taken first, then not taken). -/
def namePrefixEnds (l : List Char) : List (List Char) :=
  let r0 := skipWs l
  let afterHon : List Char → List (List Char) := fun rH =>
    let rA := skipWs rH
    (match rA with
     | c :: t => if c = ':' || c = '.' || c = '-' then [skipWs t] else []
     | [] => []) ++ [rA]
  let honEnds : List Char → List (List Char) := fun r =>
    match honMatchName r with
    | some rH => afterHon rH
    | none => []
  (match ["và".data, "va".data, "&".data].findSome? fun cj =>
      (stripLitCi cj r0).map skipWs with
   | some r1 => honEnds r1
   | none => []) ++ honEnds r0

/-- The lookahead `(?=,|\bSinh\b|\bCMND\b|\bCCCD\b|\bCMT\b|$)` at
position `r`, with `prev` the character to the left. -/
def nameLookAt (prev : Char) (r : List Char) : Bool :=
  match r with
  | [] => true
  | ',' :: _ => true
  | _ =>
      !isWordCh prev &&
      (["sinh".data, "cmnd".data, "cccd".data, "cmt".data].any fun kw =>
        match stripLitCi kw r with
        | some r2 => wordBoundary r2
        | none => false)

/-- `\s*(?=...)` after a candidate capture: a greedy whitespace skip
followed by the lookahead (positions inside the whitespace run cannot
satisfy any alternative). -/
def nameLookaheadOk (accRev : List Char) (cs : List Char) : Bool :=
  let prev : Char := if (cs.takeWhile isWsCh) = [] then accRev.headD ' ' else ' '
  nameLookAt prev (skipWs cs)

/-- Lazy expansion of `[^,\d]+?`: extend one character at a time (the
character must not be a comma or digit) and stop at the first extension
whose lookahead succeeds. -/
def lazyName (accRev : List Char) : List Char → Option (List Char)
  | [] => none
  | c :: cs =>
      if c = ',' || isDigitCh c then none
      else
        if nameLookaheadOk (c :: accRev) cs then some (c :: accRev).reverse
        else lazyName (c :: accRev) cs

def nameGroupAt : List Char → Option (List Char)
  | [] => none
  | c :: cs => if isNameStart c then lazyName [c] cs else none

def nameMatch (l : List Char) : Option (List Char) :=
  ((namePrefixEnds l).findSome? nameGroupAt).orElse fun _ => nameGroupAt l

/-- `HONORIFIC.sub('', name)`: the pattern is anchored, so at most the
leading match is removed; with no continuation, the greedy path is the
one the engine commits to. -/
def honorificSub (l : List Char) : List Char :=
  let r0 := skipWs l
  let core :=
    match ["và".data, "va".data, "&".data].findSome? fun cj =>
        (stripLitCi cj r0).map skipWs with
    | some r1 => (honMatchSub r1).orElse fun _ => honMatchSub r0
    | none => honMatchSub r0
  match core with
  | none => l
  | some rH =>
      let rA := skipWs rH
      match rA with
      | c :: t => if c = ':' || c = '.' || c = '-' then skipWs t else rA
      | [] => rA

def stripWsEnds (l : List Char) : List Char :=
  ((l.dropWhile isWsCh).reverse.dropWhile isWsCh).reverse

/-- `.strip(' ,.-_')` (the `app.py` variant omits `_`). -/
def stripCharSet (p : Char → Bool) (l : List Char) : List Char :=
  ((l.dropWhile p).reverse.dropWhile p).reverse

def nameOf (s : String) : String :=
  match nameMatch s.data with
  | none => ""
  | some g =>
      String.mk (stripCharSet
        (fun c => c = ' ' || c = ',' || c = '.' || c = '-' || c = '_')
        (honorificSub (stripWsEnds g)))

def nameOfApp (s : String) : String :=
  match nameMatch s.data with
  | none => ""
  | some g =>
      String.mk (stripCharSet
        (fun c => c = ' ' || c = ',' || c = '.' || c = '-')
        (honorificSub (stripWsEnds g)))

/-! #### Birth year / date of birth -/

/-- `Sinh\s*năm\s*:?[\s]*(\d{4})` at the current position. -/
def birthYearAt (l : List Char) : Option (List Char) :=
  match stripLitCi "sinh".data l with
  | none => none
  | some r1 =>
      match stripLitCi "năm".data (skipWs r1) with
      | none => none
      | some r2 =>
          let r3 := skipWs r2
          let r4 := match r3 with
            | ':' :: t => t
            | _ => r3
          (takeDigits 4 (skipWs r4)).map Prod.fst

def birthYearOf (s : String) : String :=
  match scanSuffixes birthYearAt s.data with
  | some d => String.mk d
  | none => ""

/-- `Sinh\s*ngày\s*:?[\s]*RE_DATE` at the current position. -/
def dobAt (l : List Char) : Option (List Char) :=
  match stripLitCi "sinh".data l with
  | none => none
  | some r1 =>
      match stripLitCi "ngày".data (skipWs r1) with
      | none => none
      | some r2 =>
          let r3 := skipWs r2
          let r4 := match r3 with
            | ':' :: t => t
            | _ => r3
          (dateCore false (skipWs r4)).map Prod.fst

def dobOf (s : String) : String :=
  match scanSuffixes dobAt s.data with
  | some d => String.mk d
  | none => ""

/-! #### ID number -/

/-- `RE_ID` middle class `[\d\s\-.]` of `xuatdulieu.py` (`\d` is
Unicode-aware). -/
def idClsX (c : Char) : Bool := isDigitCh c || c = '-' || isWsCh c || c = '.'

/-- Labelled-id middle class `[0-9\-\s\.]` of `xuatdulieu.py`
(explicit ASCII digit range). -/
def idClsLabX (c : Char) : Bool := isAsciiDigit c || c = '-' || isWsCh c || c = '.'

/-- `RE_ID` middle class `[\d\s\-]` of `app.py`. -/
def idClsApp (c : Char) : Bool := isDigitCh c || c = '-' || isWsCh c

/-- Labelled-id class `[0-9\-\s]` of `app.py`. -/
def idClsLabApp (c : Char) : Bool := isAsciiDigit c || c = '-' || isWsCh c

def idLensDown (maxLen : Nat) : List Nat :=
  (List.range (maxLen - 6)).map fun i => maxLen - i

/-- `LEAD CLS{7,maxLen}\d` at the current position (greedy middle,
backtracking until the trailing digit fits); `needB` adds `\b`.  The
lead class is `\d` for `RE_ID` but the ASCII `[0-9]` for the labelled
pattern; the trailing digit is `\d` in both. -/
def idGroupLead (lead cls : Char → Bool) (maxLen : Nat) (needB : Bool) :
    List Char → Option (List Char × List Char)
  | [] => none
  | d :: rest =>
      if lead d then
        (idLensDown maxLen).findSome? fun m =>
          let mid := rest.take m
          if mid.length = m && mid.all cls then
            match rest.drop m with
            | d2 :: r2 =>
                if isDigitCh d2 && (!needB || wordBoundary r2) then
                  some (d :: (mid ++ [d2]), r2)
                else none
            | [] => none
          else none
      else none

/-- `CLS{7,maxLen}\d` at the current position (`app.py` labelled group,
whose first character is any class character). -/
def idGroupBare (cls : Char → Bool) (maxLen : Nat) (l : List Char) :
    Option (List Char) :=
  (idLensDown maxLen).findSome? fun m =>
    let mid := l.take m
    if mid.length = m && mid.all cls then
      match l.drop m with
      | d2 :: _ => if isDigitCh d2 then some (mid ++ [d2]) else none
      | [] => none
    else none

/-- `(?:s[ốo]|so)` case-insensitively. -/
def soKw : List Char → Option (List Char)
  | s :: c :: t =>
      if charLower s = 's' && (charLower c = 'ố' || charLower c = 'o') then some t
      else none
  | _ => none

/-- Positions after the label of the `xuatdulieu.py` labelled-id
pattern `(?:(?:CMND|CCCD|CMT)\s*(?:s[ốo]|so)?|(?:s[ốo]|so)\s*(?:CMND|CCCD|CMT))`,
in backtracking order. -/
def labelEndsX (l : List Char) : List (List Char) :=
  (match ["cmnd".data, "cccd".data, "cmt".data].findSome? fun kw =>
      stripLitCi kw l with
   | some r1 =>
      let r2 := skipWs r1
      (match soKw r2 with
       | some t => [t]
       | none => []) ++ [r2]
   | none => []) ++
  (match soKw l with
   | some r1 =>
      match ["cmnd".data, "cccd".data, "cmt".data].findSome? fun kw =>
          stripLitCi kw (skipWs r1) with
      | some r2 => [r2]
      | none => []
   | none => [])

/-- `xuatdulieu.py` labelled id at the current position:
label, then `\s*[:\-\.,;]*\s*`, then `([0-9][0-9\-\s\.]{7,24}\d)`. -/
def labeledIdXAt (l : List Char) : Option (List Char) :=
  (labelEndsX l).findSome? fun r =>
    let r3 := skipWs ((skipWs r).dropWhile fun c =>
      c = ':' || c = '-' || c = '.' || c = ',' || c = ';')
    (idGroupLead isAsciiDigit idClsLabX 24 false r3).map Prod.fst

/-- `app.py` labelled id at the current position:
`(?:CMND|CCCD|CMT)\s*(?:số|so)?\s*[: ]*\s*([0-9\-\s]{7,20}\d)`; the
`\s*[: ]*\s*` runs backtrack because the group class itself contains
whitespace. -/
def labeledIdAppAt (l : List Char) : Option (List Char) :=
  (match ["cmnd".data, "cccd".data, "cmt".data].findSome? fun kw =>
      stripLitCi kw l with
   | some r1 =>
      let r2 := skipWs r1
      (match soKw r2 with
       | some t => [t]
       | none => []) ++ [r2]
   | none => []).findSome? fun r =>
    ((starBacktrack isWsCh r).flatMap fun x =>
      (starBacktrack (fun c => c = ':' || c = ' ') x).flatMap fun y =>
        starBacktrack isWsCh y).findSome? fun z =>
      idGroupBare idClsLabApp 20 z

/-- `RE_ID.findall`: non-overlapping leftmost matches of
`\b(\d CLS{7,maxLen}\d)\b`, scanning left to right. -/
def reIdScan (cls : Char → Bool) (maxLen : Nat) :
    Nat → Option Char → List Char → List (List Char)
  | 0, _, _ => []
  | _ + 1, _, [] => []
  | fuel + 1, prev, c :: cs =>
      if prevNonWord prev then
        match idGroupLead isDigitCh cls maxLen true (c :: cs) with
        | some (tok, rest) => tok :: reIdScan cls maxLen fuel (some (tok.getLastD '0')) rest
        | none => reIdScan cls maxLen fuel (some c) cs
      else reIdScan cls maxLen fuel (some c) cs

def reIdFindallX (l : List Char) : List (List Char) :=
  reIdScan idClsX 24 (l.length + 1) none l

def reIdFindallApp (l : List Char) : List (List Char) :=
  reIdScan idClsApp 20 (l.length + 1) none l

def firstValidId : List (List Char) → String
  | [] => ""
  | t :: ts =>
      if normalize_id (String.mk t) = "" then firstValidId ts
      else normalize_id (String.mk t)

def labeledIdValX (s : String) : String :=
  match scanSuffixes labeledIdXAt s.data with
  | some g => normalize_id (String.mk g)
  | none => ""

def computeIdX (s : String) : String :=
  if labeledIdValX s = "" then firstValidId (reIdFindallX s.data)
  else labeledIdValX s

def labeledIdValApp (s : String) : String :=
  match scanSuffixes labeledIdAppAt s.data with
  | some g => normalize_id (String.mk g)
  | none => ""

def computeIdApp (s : String) : String :=
  if labeledIdValApp s = "" then firstValidId (reIdFindallApp s.data)
  else labeledIdValApp s

/-! #### Issue date -/

def capKw (r : List Char) : Option (List Char) :=
  (stripLitCi "cấp".data r).orElse fun _ => stripLitCi "cap".data r

/-- `xuatdulieu.py` issue-date pattern at the current position:
`(?:(?:ngày\s*)?(?:cấp|cap)|(?:cấp|cap)\s*ngày)\s*[:,\-.:]*\s*RE_DATE`. -/
def issueXAt (l : List Char) : Option (List Char) :=
  let ends : List (List Char) :=
    (match (stripLitCi "ngày".data l).bind fun r1 => capKw (skipWs r1) with
     | some r => [r]
     | none => []) ++
    (match capKw l with
     | some r => [r]
     | none => []) ++
    (match (capKw l).bind fun r1 => stripLitCi "ngày".data (skipWs r1) with
     | some r => [r]
     | none => [])
  ends.findSome? fun r =>
    let r3 := skipWs ((skipWs r).dropWhile fun c =>
      c = ':' || c = ',' || c = '-' || c = '.')
    (dateCore false r3).map Prod.fst

def issueOfX (s : String) : String :=
  match scanSuffixes issueXAt s.data with
  | some d => String.mk d
  | none => ""

/-- `app.py` issue-date pattern `(?:cấp|cap)\s+ngày\s+RE_DATE`. -/
def issueAppAt (l : List Char) : Option (List Char) :=
  (capKw l).bind fun r1 =>
    if (r1.takeWhile isWsCh) = [] then none
    else
      (stripLitCi "ngày".data (skipWs r1)).bind fun r2 =>
        if (r2.takeWhile isWsCh) = [] then none
        else (dateCore false (skipWs r2)).map Prod.fst

def issueOfApp (s : String) : String :=
  match scanSuffixes issueAppAt s.data with
  | some d => String.mk d
  | none => ""

/-! #### `parse_person` -/

/-- `xuatdulieu.py` `parse_person` applied to the normalised line. -/
def parsePersonCore (s : String) : Option Person :=
  if s = "" then none
  else if is_address_line s then none
  else if is_person_like s = false then none
  else if nameOf s = "" ∨ (computeIdX s = "" ∧ birthYearOf s = "" ∧ dobOf s = "") then
    none
  else
    some ⟨nameOf s,
          (if birthYearOf s = "" then dobOf s else birthYearOf s),
          computeIdX s, issueOfX s, ""⟩

def parse_person (text : String) : Option Person :=
  parsePersonCore (normalize_text text)

/-- `app.py` `is_address_line`: `re.search(r'^\s*địa\s*chỉ', s, I)`. -/
def is_address_line_app (s : String) : Bool :=
  match stripLitCi "địa".data (skipWs s.data) with
  | none => false
  | some r1 => (stripLitCi "chỉ".data (skipWs r1)).isSome

def parsePersonCoreApp (s : String) : Option AppPerson :=
  if s = "" then none
  else if is_address_line_app s then none
  else if is_person_like s = false then none
  else if nameOfApp s = "" ∨
      (computeIdApp s = "" ∧ birthYearOf s = "" ∧ dobOf s = "") then none
  else
    some ⟨nameOfApp s,
          (if birthYearOf s = "" then dobOf s else birthYearOf s),
          computeIdApp s, issueOfApp s⟩

/-- `app.py` `parse_person`: returns `None` on whitespace-only input,
then cleans up separators exactly like `normalize_text` and extracts. -/
def parse_person_app (text : String) : Option AppPerson :=
  if text.data.all isWsCh then none
  else parsePersonCoreApp (normalize_text text)

/-! ### The `app.py` record segmenter (`group_records`, lines 135–182)

A simpler machine grouping person lines into records.  Its loop strips
each raw line and — unlike `xuatdulieu.py` — calls `flush()` on a blank
line, closing the in-progress record. -/

def stripWsEndsStr (s : String) : String := String.mk (stripWsEnds s.data)

/-- `is_household_header` of `app.py`:
`re.search(r'^\s*hộ\s*(?:ông|bà)?\b', s, I)`.  The trailing `\b` can be
satisfied after the optional honorific, right after `hộ`, or after part
of the whitespace run when a word character follows it. -/
def is_household_header (s : String) : Bool :=
  match stripLitCi "hộ".data (skipWs s.data) with
  | none => false
  | some r1 =>
      (match (stripLitCi "ông".data (skipWs r1)).orElse fun _ =>
          stripLitCi "bà".data (skipWs r1) with
       | some r2 => wordBoundary r2
       | none => false) ||
      (match r1 with
       | [] => true
       | c :: _ => !isWordCh c) ||
      (r1.takeWhile isWsCh ≠ [] &&
        match skipWs r1 with
        | c :: _ => isWordCh c
        | [] => false)

/-- `is_plain_honorific_header` of `app.py`: the stripped line must not
start with a conjunction, must start with a plain honorific followed by
`\b`, and must be person-like. -/
def is_plain_honorific_header (s : String) : Bool :=
  let t := stripWsEndsStr s
  if t = "" then false
  else if (["và".data, "va".data, "&".data].findSome? fun cj =>
      match stripLitCi cj t.data with
      | some r => if wordBoundary r then some r else none
      | none => none).isSome then false
  else if (["ông", "bà", "anh", "chị", "cô", "chú", "bác", "em"].findSome?
      fun (kw : String) =>
        match stripLitCi kw.data t.data with
        | some r => if wordBoundary r then some r else none
        | none => none).isNone then false
  else is_person_like t

structure AState where
  records : List (List AppPerson)
  people : List AppPerson
deriving DecidableEq, Repr

/-- `flush()` of `app.py`: append a copy of the current people (if any)
as a finished record and clear. -/
def flushApp (st : AState) : AState :=
  if st.people = [] then st else ⟨st.records ++ [st.people], []⟩

/-- One iteration of the `for raw in lines` loop of `app.py`
`group_records`, on the already-stripped line `s`.  A blank line calls
`flush()`. -/
def stepAppCore (st : AState) (s : String) : AState :=
  if s = "" then flushApp st
  else if is_household_header s then
    match parse_person_app s with
    | some p => { flushApp st with people := (flushApp st).people ++ [p] }
    | none => flushApp st
  else if is_plain_honorific_header s then
    match parse_person_app s with
    | some p => { flushApp st with people := (flushApp st).people ++ [p] }
    | none => flushApp st
  else if is_address_line_app s then st
  else
    match parse_person_app s with
    | some p => { st with people := st.people ++ [p] }
    | none => st

def stepApp (st : AState) (raw : String) : AState :=
  stepAppCore st (stripWsEndsStr raw)

def initApp : AState := ⟨[], []⟩

def group_records_app (lines : List String) : List (List AppPerson) :=
  (flushApp (lines.foldl stepApp initApp)).records

/-! ### Parcel extraction (`xuatdulieu.py` lines 192–272,
`parse_parcel_line_v2`) -/

structure Parcel where
  ngay_thang_vao_so : String
  so_thu_tu_thua_dat : String
  so_thu_tu_to_ban_do : String
  dt_rieng_m2 : String
  dt_chung_m2 : String
  muc_dich_su_dung : String
  thoi_han_su_dung : String
  nguon_goc_su_dung : String
  so_phat_hanh_gcn : String
  so_vao_so : String
  thua_raw : String
deriving DecidableEq, Repr

/-- `_num`: decimal-comma to dot; a value containing an ASCII letter
(e.g. the word for "none") normalises to empty, never to zero. -/
def numX (l : List Char) : List Char :=
  let n := stripWsEnds (l.map fun c => if c = ',' then '.' else c)
  if n = [] || n.any (fun c => ('a' ≤ c && c ≤ 'z') || ('A' ≤ c && c ≤ 'Z')) then []
  else n

/-- `[, ]*(\d+)[, ]+(\d+)(.*)$`: optional leading separators, parcel
number, separators, map-sheet number (each step deterministic because
the classes are disjoint). -/
def parcelNums (rest : List Char) : Option (List Char × List Char × List Char) :=
  let isPS : Char → Bool := fun c => c = ',' || c = ' '
  let r0 := rest.dropWhile isPS
  let d1 := r0.takeWhile isDigitCh
  if d1 = [] then none
  else
    let r1 := r0.dropWhile isDigitCh
    if r1.takeWhile isPS = [] then none
    else
      let r2 := r1.dropWhile isPS
      let d2 := r2.takeWhile isDigitCh
      if d2 = [] then none
      else some (d1, d2, r2.dropWhile isDigitCh)

/-- `([\d.,]+|\S+)(.*)$`: a numeric-looking token if the first
character allows it, otherwise a maximal non-space token. -/
def tok1Split (r : List Char) : Option (List Char × List Char) :=
  match r with
  | [] => none
  | c :: _ =>
      let isNum : Char → Bool := fun d => isDigitCh d || d = '.' || d = ','
      if isNum c then some (r.takeWhile isNum, r.dropWhile isNum)
      else if isWsCh c then none
      else some (r.takeWhile (fun d => !isWsCh d), r.dropWhile (fun d => !isWsCh d))

/-- `([A-Z]{2,5})\b(.*)$`: only the full uppercase run can satisfy the
boundary, so the match succeeds exactly when its length is 2–5. -/
def mucDichSplit (r : List Char) : Option (List Char × List Char) :=
  let isUp : Char → Bool := fun c => 'A' ≤ c && c ≤ 'Z'
  let run := r.takeWhile isUp
  if 2 ≤ run.length && run.length ≤ 5 && wordBoundary (r.drop run.length) then
    some (run, r.drop run.length)
  else none

/-- `(Lâu\s*dài|RE_DATE)\b(.*)$` (IGNORECASE): the matched text is kept
with its original case and spacing. -/
def thoiHanSplit (r : List Char) : Option (List Char × List Char) :=
  match (stripLitCi "lâu".data r).bind fun r1 =>
      (stripLitCi "dài".data (skipWs r1)).bind fun r2 =>
        if wordBoundary r2 then some r2 else none with
  | some r2 => some (r.take (r.length - r2.length), r2)
  | none => dateCore true r

def takeUppers : Nat → List Char → Option (List Char × List Char)
  | 0, l => some ([], l)
  | n + 1, c :: cs =>
      if 'A' ≤ c && c ≤ 'Z' then
        (takeUppers n cs).map fun (u, r) => (c :: u, r)
      else none
  | _ + 1, [] => none

/-- `\b([A-Z]{2,4}\s*-\s*[A-Z]{2,4})\b` at the current position. -/
def nguonGocAt (prev : Option Char) (r : List Char) : Option (List Char) :=
  if !prevNonWord prev then none
  else
    [4, 3, 2].findSome? fun k1 =>
      (takeUppers k1 r).bind fun (_, r1) =>
        match skipWs r1 with
        | '-' :: r2 =>
            [4, 3, 2].findSome? fun k2 =>
              (takeUppers k2 (skipWs r2)).bind fun (_, r3) =>
                if wordBoundary r3 then some (r.take (r.length - r3.length))
                else none
        | _ => none

/-- `\b([A-Z]{1,3}\s*\d{minD,})\b` at the current position, returning
the match and the rest. -/
def serialAt (minD : Nat) (prev : Option Char) (r : List Char) :
    Option (List Char × List Char) :=
  if !prevNonWord prev then none
  else
    [3, 2, 1].findSome? fun k =>
      (takeUppers k r).bind fun (_, r1) =>
        let r2 := skipWs r1
        let ds := r2.takeWhile isDigitCh
        let rest := r2.drop ds.length
        if minD ≤ ds.length && wordBoundary rest then
          some (r.take (r.length - rest.length), rest)
        else none

/-- `findall` over the serial pattern: non-overlapping leftmost
matches, scanning left to right. -/
def serialScan (minD : Nat) : Nat → Option Char → List Char → List (List Char)
  | 0, _, _ => []
  | _ + 1, _, [] => []
  | fuel + 1, prev, c :: cs =>
      match serialAt minD prev (c :: cs) with
      | some (tok, rest) =>
          tok :: serialScan minD fuel (some (tok.getLastD '0')) rest
      | none => serialScan minD fuel (some c) cs

def parse_parcel_line_v2 (s : String) : Option Parcel :=
  let t := normalize_text s
  if t = "" then none
  else
    match dateCore true t.data with
    | none => none
    | some (ngay, restRaw) =>
        let rest := stripWsEnds restRaw
        let trip := match parcelNums rest with
          | some (d1, d2, rm) => (d1, d2, stripWsEnds rm)
          | none => ([], [], rest)
        let pair3 := match tok1Split trip.2.2 with
          | some (tk, rm) => (tk, stripWsEnds rm)
          | none => ([], trip.2.2)
        let pair4 := match tok1Split pair3.2 with
          | some (tk, rm) => (tk, stripWsEnds rm)
          | none => ([], pair3.2)
        let pair5 := match mucDichSplit pair4.2 with
          | some (g, rm) => (g, stripWsEnds rm)
          | none => ([], pair4.2)
        let pair6 := match thoiHanSplit pair5.2 with
          | some (g, rm) => (g, stripWsEnds rm)
          | none => ([], pair5.2)
        let restFin := pair6.2
        let ng := (scanPrev nguonGocAt none restFin).getD []
        let ph := match scanPrev (fun p r => (serialAt 4 p r).map Prod.fst) none restFin with
          | some g => g.filter (· ≠ ' ')
          | none => []
        let vs := match (serialScan 3 (restFin.length + 1) none restFin).getLast? with
          | some g => g.filter (· ≠ ' ')
          | none => []
        some ⟨String.mk ngay, String.mk trip.1, String.mk trip.2.1,
              String.mk (numX pair3.1), String.mk (numX pair4.1),
              String.mk pair5.1, String.mk pair6.1,
              String.mk ng, String.mk ph, String.mk vs, t⟩

/-! ### Address propagation (`xuatdulieu.py` lines 277–289) -/

/-- The set `uniq` of `propagate_addresses`: the distinct stripped
non-empty addresses (a list with duplicates removed stands in for the
Python set; only its size and sole element are ever used). -/
def uniqAddrs (people : List Person) : List String :=
  ((people.map fun p => String.mk (stripWsEnds p.address.data)).filter
    (· ≠ "")).dedup

def propagate_addresses (people : List Person) : List Person :=
  if (uniqAddrs people).length = 1 then
    people.map fun p =>
      if p.address = "" then { p with address := (uniqAddrs people).headD "" }
      else p
  else people

/-! ### Record segmentation and flattening (`xuatdulieu.py`
lines 295–469, `group_records` with its inner `flush_bia`) -/

structure Row where
  ngay : String
  thua : String
  to_bd : String
  rieng : String
  chung : String
  mucdich : String
  thoihan : String
  nguongoc : String
  soph : String
  sovs : String
  ten1 : String
  ns1 : String
  sgt1 : String
  nc1 : String
  dc1 : String
  ten2 : String
  ns2 : String
  sgt2 : String
  nc2 : String
  dc2 : String
deriving DecidableEq, Repr

/-- `dict()`: every `.get(..., '')` yields the empty string. -/
def blankParcel : Parcel := ⟨"", "", "", "", "", "", "", "", "", "", ""⟩

def pGet (p : Option Person) (f : Person → String) : String :=
  match p with
  | some q => f q
  | none => ""

def mkRow (thua : Parcel) (p1 p2 : Option Person) : Row :=
  ⟨thua.ngay_thang_vao_so, thua.so_thu_tu_thua_dat, thua.so_thu_tu_to_ban_do,
   thua.dt_rieng_m2, thua.dt_chung_m2, thua.muc_dich_su_dung,
   thua.thoi_han_su_dung, thua.nguon_goc_su_dung, thua.so_phat_hanh_gcn,
   thua.so_vao_so,
   pGet p1 Person.full_name, pGet p1 Person.birth_year, pGet p1 Person.id_number,
   pGet p1 Person.issue_date, pGet p1 Person.address,
   pGet p2 Person.full_name, pGet p2 Person.birth_year, pGet p2 Person.id_number,
   pGet p2 Person.issue_date, pGet p2 Person.address⟩

inductive Sec where
  | SI : Sec
  | SII : Sec
deriving DecidableEq, Repr

structure XState where
  rows : List Row
  in_bia : Bool
  sec : Option Sec
  people : List Person
  parcels : List Parcel
deriving DecidableEq, Repr

/-- `flush_bia` of `xuatdulieu.py`: guarded only by `in_bia` — a record
that was opened but stayed empty still emits one row built from an
empty parcel dict and two empty person dicts. -/
def flushRowsX (st : XState) : List Row :=
  if st.in_bia then
    let ppl := propagate_addresses st.people
    (if st.parcels = [] then [blankParcel] else st.parcels).map fun t =>
      mkRow t ppl[0]? ppl[1]?
  else []

/-- `flush_bia` of `appexcel2.py`: returns early when the record has no
people and no parcels. -/
def flushRows2 (people : List Person) (parcels : List Parcel) : List Row :=
  if people = [] ∧ parcels = [] then []
  else
    let ppl := propagate_addresses people
    (if parcels = [] then [blankParcel] else parcels).map fun t =>
      mkRow t ppl[0]? ppl[1]?

/-- `flush_bia` of `app_excel3.py`: guarded by `in_bia` and by the
record being non-empty. -/
def flushRows3 (in_bia : Bool) (people : List Person) (parcels : List Parcel) :
    List Row :=
  if in_bia = false then []
  else if people = [] ∧ parcels = [] then []
  else
    let ppl := propagate_addresses people
    (if parcels = [] then [blankParcel] else parcels).map fun t =>
      mkRow t ppl[0]? ppl[1]?

def setLastAddress : List Person → String → List Person
  | [], _ => []
  | [p], a => [{ p with address := a }]
  | p :: q :: ps, a => p :: setLastAddress (q :: ps) a

/-- One iteration of the `for raw in lines` loop of `group_records`,
on the already-normalised line `s`. -/
def stepCore (st : XState) (s : String) : XState :=
  if s = "" then st
  else if is_section_header_i s then
    { rows := st.rows ++ flushRowsX st, in_bia := true, sec := some Sec.SI,
      people := [], parcels := [] }
  else if st.in_bia = false then st
  else if is_section_header_ii s then { st with sec := some Sec.SII }
  else
    match st.sec with
    | some Sec.SI =>
        if is_address_line s then
          let addr := extract_address s
          match st.people.getLast? with
          | some lastP =>
              if addr ≠ "" ∧ lastP.address = "" then
                { st with people := propagate_addresses (setLastAddress st.people addr) }
              else st
          | none => st
        else
          match parse_person s with
          | some p => { st with people := st.people ++ [p] }
          | none => st
    | some Sec.SII =>
        match parse_parcel_line_v2 s with
        | some t => { st with parcels := st.parcels ++ [t] }
        | none => st
    | none => st

def stepX (st : XState) (raw : String) : XState :=
  stepCore st (normalize_text raw)

def initX : XState := ⟨[], false, none, [], []⟩

/-- `group_records`: fold the segmenter step over the lines, then
`flush_bia()` once more at end of input. -/
def group_records (lines : List String) : List Row :=
  (lines.foldl stepX initX).rows ++ flushRowsX (lines.foldl stepX initX)

/-! ### Encoding rescue (`test.py`)

`fix_mixed_to_unicode` splits on whitespace (keeping the whitespace),
repairs word tokens through the external codec, reassembles, and tries
a whole-line rescue pass.  The codec capability (`converter.py`, not
part of this repository) is a parameter: `detectCharset` may raise or
return an unexpected value, `convert` may raise a conversion error;
`.ok ""` models a falsy detection result. -/

structure Codec where
  detectCharset : List Char → Except Unit String
  convert : List Char → String → String → Except Unit (List Char)

def legacyMarkers : List Char := "¬«¨¸µÊÆ§¯¾»¼½ÞßþØøÏîëìäåãèéæçñª".data

def hasMarker (l : List Char) : Bool := l.any fun c => legacyMarkers.contains c

/-- `VN_UNI = [À-ỹ]`. -/
def isVnUni (c : Char) : Bool := 0xC0 ≤ c.toNat && c.toNat ≤ 0x1EF9

def scoreKeywords : List String :=
  ["ngày", "cấp", "nơi", "công", "tỉnh", "sinh", "địa", "chỉ",
   "thửa", "bản", "đồ", "phú", "yên"]

def isSubstr (pat : List Char) : List Char → Bool
  | [] => pat.isPrefixOf []
  | c :: cs => pat.isPrefixOf (c :: cs) || isSubstr pat cs

/-- `score_vn`: diacritic count plus 3 per domain keyword occurring in
the lower-cased text. -/
def score_vn (l : List Char) : Nat :=
  (l.filter isVnUni).length +
    3 * (scoreKeywords.filter fun kw => isSubstr kw.data (lowerList l)).length

def CANDIDATES : List String :=
  ["TCVN3", "VNI_WIN", "VPS_WIN", "VIETWARE_X", "VIETWARE_F", "VISCII", "VIQR"]

/-- `convert_best`: try every candidate code page (a raising candidate
is skipped) and keep the best-scoring output, the input winning ties. -/
def convert_best (conv : Codec) (s : List Char) : List Char :=
  (CANDIDATES.foldl (fun (b : List Char × Nat) cs =>
      match conv.convert s "UNICODE" cs with
      | .error _ => b
      | .ok t => if score_vn t > b.2 then (t, score_vn t) else b)
    (s, score_vn s)).1

/-- `_WS_SPLIT.split` with the empty pieces dropped: maximal runs of
whitespace / non-whitespace characters, in order. -/
def chunksGo : List Char → List Char → List (List Char)
  | acc, [] => if acc = [] then [] else [acc.reverse]
  | [], c :: cs => chunksGo [c] cs
  | a :: as, c :: cs =>
      if isWsCh a = isWsCh c then chunksGo (c :: a :: as) cs
      else (a :: as).reverse :: chunksGo [c] cs

def chunksOf (l : List Char) : List (List Char) := chunksGo [] l

/-- The token loop of `fix_mixed_to_unicode`.  `detectCharset` is
called outside any exception handler, so a raising detection
propagates; `convert` failures are caught and keep the token. -/
def processToks (conv : Codec) : List (List Char) → Except Unit (List Char)
  | [] => .ok []
  | t :: ts =>
      if t.all isWsCh then (processToks conv ts).map (t ++ ·)
      else
        (conv.detectCharset t).bind fun cs =>
          let tNew :=
            if cs ≠ "" ∧ cs ≠ "UNICODE" then
              match conv.convert t "UNICODE" cs with
              | .ok u => u
              | .error _ => t
            else if hasMarker t then convert_best conv t
            else t
          (processToks conv ts).map (tNew ++ ·)

def fix_mixed_to_unicode (conv : Codec) (l : List Char) : Except Unit (List Char) :=
  (processToks conv (chunksOf l)).map fun result =>
    if hasMarker result then
      let candidate := convert_best conv result
      if score_vn candidate > score_vn result then candidate else result
    else result

/-! ## Lemmas about the segmenter -/

lemma header_i_normalize (s : String) :
    is_section_header_i (normalize_text s) = is_section_header_i s := by
  unfold is_section_header_i foldedUpper
  rw [normalize_text_idem]

lemma header_i_of_blank (r : String) (h : normalize_text r = "") :
    is_section_header_i r = false := by
  unfold is_section_header_i foldedUpper
  rw [h]
  rfl

lemma stepCore_header (st : XState) (s : String)
    (h : is_section_header_i s = true) :
    stepCore st s =
      ⟨st.rows ++ flushRowsX st, true, some Sec.SI, [], []⟩ := by
  have hne : ¬ s = "" := by
    intro he
    subst he
    exact absurd h (by decide)
  unfold stepCore
  rw [if_neg hne, if_pos h]

lemma stepX_header (st : XState) (r : String)
    (h : is_section_header_i r = true) :
    stepX st r = ⟨st.rows ++ flushRowsX st, true, some Sec.SI, [], []⟩ := by
  unfold stepX
  exact stepCore_header st _ (by rw [header_i_normalize]; exact h)

lemma flushRowsX_length (st : XState) (h : st.in_bia = true) :
    (flushRowsX st).length = max 1 st.parcels.length := by
  unfold flushRowsX
  rw [if_pos h]
  cases hp : st.parcels with
  | nil => simp
  | cons a l =>
      simp only [hp]
      simp [List.length_map]

lemma flushRowsX_ne (st : XState) (h : st.in_bia = true) :
    flushRowsX st ≠ [] := by
  have hl := flushRowsX_length st h
  intro he
  rw [he] at hl
  simp at hl
  omega

lemma flushRowsX_empty_record (st : XState) (h : st.in_bia = true)
    (hp : st.people = []) (hq : st.parcels = []) :
    flushRowsX st = [mkRow blankParcel none none] := by
  unfold flushRowsX
  rw [if_pos h, hp, hq]
  rfl

lemma normalize_text_blank (r : String) (h : ∀ c ∈ r.data, isWsCh c = true) :
    normalize_text r = "" := by
  unfold normalize_text
  rw [normList_allSep r.data fun c hc => by simp [isSepCh, h c hc]]

lemma stepX_blank (st : XState) (r : String)
    (h : ∀ c ∈ r.data, isWsCh c = true) : stepX st r = st := by
  unfold stepX
  rw [normalize_text_blank r h]
  rfl

lemma stepCore_outside (s : String) (h : is_section_header_i s = false) :
    stepCore initX s = initX := by
  unfold stepCore
  by_cases he : s = ""
  · rw [if_pos he]
  · rw [if_neg he, if_neg (by simp [h]),
        if_pos (show initX.in_bia = false from rfl)]

lemma stepX_outside (r : String) (h : is_section_header_i r = false) :
    stepX initX r = initX := by
  unfold stepX
  exact stepCore_outside _ (by rw [header_i_normalize]; exact h)

/-- The ten parcel columns of an output row. -/
def rowParcelFields (r : Row) : List String :=
  [r.ngay, r.thua, r.to_bd, r.rieng, r.chung, r.mucdich, r.thoihan,
   r.nguongoc, r.soph, r.sovs]

/-! ## Claims C1, C2, C3, C9, C10 -/

/-- C1: whenever the segmenter sees a line satisfying the
persons-section-header predicate, it appends the flush of the
in-progress record to the output (and that flush is non-empty whenever
the record is open with at least one person or parcel) and resets to a
fresh open record in the persons section — for every prior state
(OUTSIDE, IN_PERSONS or IN_PARCELS alike). -/
theorem c1_header_flushes_and_resets (st : XState) (r : String)
    (h : is_section_header_i r = true) :
    stepX st r = ⟨st.rows ++ flushRowsX st, true, some Sec.SI, [], []⟩ ∧
    (st.in_bia = true → st.people ≠ [] ∨ st.parcels ≠ [] →
      flushRowsX st ≠ []) :=
  ⟨stepX_header st r h, fun hb _ => flushRowsX_ne st hb⟩

def c1State : XState :=
  ⟨[], true, some Sec.SII, [⟨"Trần B", "1950", "012345678901", "", ""⟩], []⟩

theorem c1_witness :
    stepX c1State "I - NGƯỜI SỬ DỤNG ĐẤT" =
      ⟨c1State.rows ++ flushRowsX c1State, true, some Sec.SI, [], []⟩ ∧
    (c1State.in_bia = true → c1State.people ≠ [] ∨ c1State.parcels ≠ [] →
      flushRowsX c1State ≠ []) :=
  c1_header_flushes_and_resets c1State "I - NGƯỜI SỬ DỤNG ĐẤT" (by decide)

def c2Line : String := "I - NGƯỜI SỬ DỤNG ĐẤT"

/-- C2 counterexample: in `xuatdulieu.py` a single section-I header
opens a record that ends the input with zero persons and zero parcels,
yet `group_records` emits one all-empty row for it instead of
discarding it. -/
theorem c2_counterexample :
    ([c2Line].foldl stepX initX).people = [] ∧
    ([c2Line].foldl stepX initX).parcels = [] ∧
    ([c2Line].foldl stepX initX).in_bia = true ∧
    group_records [c2Line] = [mkRow blankParcel none none] ∧
    group_records [c2Line] ≠ [] := by decide

/-- C2 (amended): the `appexcel2.py` and `app_excel3.py` flushes
discard a record with zero persons and zero parcels without emitting
rows; in `xuatdulieu.py` this holds only while no record has been
opened — once `in_bia` is set, flushing an empty record emits exactly
one output row all of whose fields are empty. -/
theorem c2_empty_record_flush (people : List Person) (parcels : List Parcel)
    (st : XState) (h2p : people = []) (h2q : parcels = [])
    (hb : st.in_bia = true) (hp : st.people = []) (hq : st.parcels = []) :
    flushRows2 people parcels = [] ∧
    flushRows3 true people parcels = [] ∧
    flushRowsX st = [mkRow blankParcel none none] := by
  subst h2p h2q
  exact ⟨rfl, rfl, flushRowsX_empty_record st hb hp hq⟩

theorem c2_witness :
    flushRows2 [] [] = [] ∧
    flushRows3 true [] [] = [] ∧
    flushRowsX ⟨[], true, some Sec.SI, [], []⟩ = [mkRow blankParcel none none] :=
  c2_empty_record_flush [] [] ⟨[], true, some Sec.SI, [], []⟩ rfl rfl rfl rfl rfl

/-- C3: a flushed record with at least one person or parcel produces
exactly `max 1 (number of parcels)` output rows — one per parcel, or a
single row whose ten parcel fields are all empty when the record has no
parcels — in both the `xuatdulieu.py` and the `app_excel3.py` flush. -/
theorem c3_row_count (st : XState) (hb : st.in_bia = true)
    (hne : st.people ≠ [] ∨ st.parcels ≠ []) :
    (flushRowsX st).length = max 1 st.parcels.length ∧
    (flushRows3 true st.people st.parcels).length = max 1 st.parcels.length ∧
    (st.parcels = [] →
      (flushRowsX st).map rowParcelFields = [List.replicate 10 ""]) := by
  refine ⟨flushRowsX_length st hb, ?_, ?_⟩
  · have hno : ¬ (st.people = [] ∧ st.parcels = []) := by
      rcases hne with h | h <;> tauto
    unfold flushRows3
    rw [if_neg (by simp), if_neg hno]
    cases hp : st.parcels with
    | nil => simp
    | cons a l =>
        simp only [hp]
        simp [List.length_map]
  · intro hpz
    unfold flushRowsX
    rw [if_pos hb, hpz]
    rfl

def c3State : XState :=
  ⟨[], true, some Sec.SI, [⟨"Trần B", "1950", "012345678901", "", ""⟩], []⟩

theorem c3_witness :
    (flushRowsX c3State).length = max 1 c3State.parcels.length ∧
    (flushRows3 true c3State.people c3State.parcels).length =
      max 1 c3State.parcels.length ∧
    (c3State.parcels = [] →
      (flushRowsX c3State).map rowParcelFields = [List.replicate 10 ""]) :=
  c3_row_count c3State rfl (Or.inl (by decide))

lemma stripWsEndsStr_blank (r : String) (h : ∀ c ∈ r.data, isWsCh c = true) :
    stripWsEndsStr r = "" := by
  unfold stripWsEndsStr stripWsEnds
  have h1 : r.data.dropWhile isWsCh = [] := by
    rw [List.dropWhile_eq_nil_iff]
    intro c hc
    exact h c hc
  rw [h1]
  rfl

lemma stepApp_blank (ast : AState) (r : String)
    (h : ∀ c ∈ r.data, isWsCh c = true) : stepApp ast r = flushApp ast := by
  unfold stepApp
  rw [stripWsEndsStr_blank r h]
  rfl

def c9LineA : String := "Hộ ông: Nguyễn A, sinh năm 1938, CMND 220515369"
def c9LineB : String := "và bà Trần Thị B, sinh năm 1940, CMND 123456789"
def c9PA : AppPerson := ⟨"Nguyễn A", "1938", "220515369", ""⟩
def c9PB : AppPerson := ⟨"Trần Thị B", "1940", "123456789", ""⟩

/-- C9 counterexample: in the cited `app.py` `group_records` a blank
line calls `flush()`, so inserting a blank line between a household
header and its co-owner line splits one record into two — the output
is altered. -/
theorem c9_counterexample :
    group_records_app [c9LineA, c9LineB] = [[c9PA, c9PB]] ∧
    group_records_app [c9LineA, "", c9LineB] = [[c9PA], [c9PB]] ∧
    ([[c9PA], [c9PB]] : List (List AppPerson)) ≠ [[c9PA, c9PB]] := by decide

/-- C9 (amended): in `xuatdulieu.py` a line that is empty or all
whitespace leaves the segmenter state exactly as it was — no state
change, no flush, no rows — so inserting such a line anywhere leaves
the output of `group_records` unchanged; in `app.py`'s `group_records`,
however, a blank line performs `flush()`, closing any in-progress
record (so inserting one can split a record). -/
theorem c9_blank_line_behaviour (st : XState) (r : String)
    (xs ys : List String) (ast : AState)
    (h : ∀ c ∈ r.data, isWsCh c = true) :
    stepX st r = st ∧
    group_records (xs ++ r :: ys) = group_records (xs ++ ys) ∧
    stepApp ast r = flushApp ast := by
  refine ⟨stepX_blank st r h, ?_, stepApp_blank ast r h⟩
  unfold group_records
  rw [List.foldl_append, List.foldl_cons, stepX_blank _ r h, ← List.foldl_append]

theorem c9_witness :
    stepX initX "  \t " = initX ∧
    group_records (["I - NGƯỜI SỬ DỤNG ĐẤT"] ++ "  \t " :: []) =
      group_records (["I - NGƯỜI SỬ DỤNG ĐẤT"] ++ []) ∧
    stepApp ⟨[], [c9PA]⟩ "  \t " = flushApp ⟨[], [c9PA]⟩ :=
  c9_blank_line_behaviour initX "  \t " ["I - NGƯỜI SỬ DỤNG ĐẤT"] []
    ⟨[], [c9PA]⟩ (by decide)

/-- C10: every line before the first persons-section header is
discarded without effect: for a prefix containing no section-I header,
`group_records` of the whole input equals `group_records` of the
suffix. -/
theorem c10_prefix_discarded (pre suf : List String)
    (h : ∀ r ∈ pre, is_section_header_i r = false) :
    group_records (pre ++ suf) = group_records suf := by
  have hfold : pre.foldl stepX initX = initX := by
    induction pre with
    | nil => rfl
    | cons a l ih =>
        rw [List.foldl_cons, stepX_outside a (h a (by simp))]
        exact ih fun r hr => h r (by simp [hr])
  unfold group_records
  rw [List.foldl_append, hfold]

theorem c10_witness :
    group_records
      (["Hộ ông: Nguyễn A, sinh năm 1938, số CMND 220515369",
        "Địa chỉ: thôn 5", "II - THỬA ĐẤT"] ++ ["I - NGƯỜI SỬ DỤNG ĐẤT"]) =
    group_records ["I - NGƯỜI SỬ DỤNG ĐẤT"] :=
  c10_prefix_discarded
    ["Hộ ông: Nguyễn A, sinh năm 1938, số CMND 220515369",
     "Địa chỉ: thôn 5", "II - THỬA ĐẤT"]
    ["I - NGƯỜI SỬ DỤNG ĐẤT"] (by decide)

/-! ## Claim C7: address propagation -/

def c7P1 : Person := ⟨"P1", "", "", "", "X "⟩
def c7P2 : Person := ⟨"P2", "", "", "", ""⟩

/-- C7 counterexample: with addresses `"X "` (trailing space) and `""`,
the set of distinct non-empty address values is exactly `{"X "}`, yet
after propagation the second person holds `"X"` (the stripped value)
and the first keeps `"X "` — so not every person ends with that
address, and a field does change even though the literal non-empty
value set has size 1. -/
theorem c7_counterexample :
    (([c7P1, c7P2].map Person.address).filter (· ≠ "")).dedup = ["X "] ∧
    (propagate_addresses [c7P1, c7P2]).map Person.address = ["X ", "X"] ∧
    ¬ (∀ a ∈ (propagate_addresses [c7P1, c7P2]).map Person.address,
        a = "X ") := by decide

/-- C7 (amended): when the distinct *stripped* non-empty addresses
form a singleton, every person whose address is the empty string
receives that stripped value and every other person is unchanged; when
that set has size 0 or ≥ 2 the list is returned unchanged; and in every
case a person with a non-empty address is never modified. -/
theorem c7_propagation_law (ps : List Person) :
    ((uniqAddrs ps).length = 1 →
      (propagate_addresses ps).map Person.address =
        ps.map fun p =>
          if p.address = "" then (uniqAddrs ps).headD "" else p.address) ∧
    ((uniqAddrs ps).length ≠ 1 → propagate_addresses ps = ps) ∧
    (∀ i : Nat, ∀ p : Person, ps[i]? = some p → p.address ≠ "" →
      (propagate_addresses ps)[i]? = some p) := by
  refine ⟨?_, ?_, ?_⟩
  · intro h
    unfold propagate_addresses
    rw [if_pos h, List.map_map]
    refine List.map_congr_left fun p _ => ?_
    by_cases hp : p.address = "" <;> simp [hp]
  · intro h
    unfold propagate_addresses
    rw [if_neg h]
  · intro i p hip hne
    unfold propagate_addresses
    by_cases h : (uniqAddrs ps).length = 1
    · rw [if_pos h]
      rw [List.getElem?_map, hip]
      simp [hne]
    · rw [if_neg h]
      exact hip

theorem c7_witness :
    ((uniqAddrs [c7P1, c7P2]).length = 1 →
      (propagate_addresses [c7P1, c7P2]).map Person.address =
        [c7P1, c7P2].map fun p =>
          if p.address = "" then (uniqAddrs [c7P1, c7P2]).headD ""
          else p.address) ∧
    ((uniqAddrs [c7P1, c7P2]).length ≠ 1 →
      propagate_addresses [c7P1, c7P2] = [c7P1, c7P2]) ∧
    (∀ i : Nat, ∀ p : Person, [c7P1, c7P2][i]? = some p → p.address ≠ "" →
      (propagate_addresses [c7P1, c7P2])[i]? = some p) :=
  c7_propagation_law [c7P1, c7P2]

/-! ## Claim C8: id validity -/

/-- The shape every extracted id must have: empty, or 9–12 ASCII
digits. -/
def idOk (t : String) : Prop :=
  t = "" ∨ (9 ≤ t.length ∧ t.length ≤ 12 ∧ ∀ c ∈ t.data, isDigitCh c = true)

lemma normalize_id_ok (t : String) : idOk (normalize_id t) := by
  unfold normalize_id idOk
  split
  case isTrue h =>
    right
    refine ⟨h.1, h.2, ?_⟩
    intro c hc
    exact List.of_mem_filter hc
  case isFalse h => left; rfl

lemma firstValidId_ok (ts : List (List Char)) : idOk (firstValidId ts) := by
  induction ts with
  | nil => left; rfl
  | cons t ts ih =>
      unfold firstValidId
      split
      · exact ih
      · exact normalize_id_ok _

lemma labeledIdValX_ok (s : String) : idOk (labeledIdValX s) := by
  unfold labeledIdValX
  cases scanSuffixes labeledIdXAt s.data with
  | some g => exact normalize_id_ok _
  | none => left; rfl

lemma computeIdX_ok (s : String) : idOk (computeIdX s) := by
  unfold computeIdX
  split
  · exact firstValidId_ok _
  · exact labeledIdValX_ok s

lemma parse_person_id (s : String) (p : Person)
    (h : parse_person s = some p) :
    p.id_number = computeIdX (normalize_text s) := by
  unfold parse_person parsePersonCore at h
  split at h
  · exact absurd h (by simp)
  split at h
  · exact absurd h (by simp)
  split at h
  · exact absurd h (by simp)
  split at h
  · exact absurd h (by simp)
  cases h
  rfl

def c8CexLine : String := "Ông An Bình, sinh năm 1938, CMND ٠١٢٣٤٥٦٧٨"

def c8CexPerson : Person := ⟨"An Bình", "1938", "٠١٢٣٤٥٦٧٨", "", ""⟩

/-- C8 counterexample: Python `\d`/`\D` are Unicode-aware, so a line
whose id token consists of nine Arabic-Indic digits sails through
`RE_ID` and `normalize_id` (`re.sub(r'\D','',...)` keeps them, the
9–12 length check passes) and `parse_person` returns a Person whose
non-empty `id_number` contains no ASCII digit at all — falsifying the
claim's "9 to 12 ASCII digit characters". -/
theorem c8_counterexample :
    parse_person c8CexLine = some c8CexPerson ∧
    c8CexPerson.id_number ≠ "" ∧
    ¬ (∀ c ∈ c8CexPerson.id_number.data, c.isDigit = true) := by decide

/-- C8 (amended): every Person returned by `parse_person` carries an
`id_number` that is either empty or a string of 9–12 Unicode decimal
digits — the digits remaining after stripping every non-digit in
`normalize_id` — ASCII for ASCII input, but non-ASCII decimal digits
pass through unchanged. -/
theorem c8_id_digit_class (line : String) (p : Person)
    (h : parse_person line = some p) :
    p.id_number = "" ∨
      (9 ≤ p.id_number.length ∧ p.id_number.length ≤ 12 ∧
        ∀ c ∈ p.id_number.data, isDigitCh c = true) := by
  rw [parse_person_id line p h]
  exact computeIdX_ok _

def c8Line : String := "Ông Trần B, sinh năm 1950, CCCD 012345678901"

theorem c8_witness :
    (⟨"Trần B", "1950", "012345678901", "", ""⟩ : Person).id_number = "" ∨
      (9 ≤ (⟨"Trần B", "1950", "012345678901", "", ""⟩ : Person).id_number.length ∧
        (⟨"Trần B", "1950", "012345678901", "", ""⟩ : Person).id_number.length ≤ 12 ∧
        ∀ c ∈ (⟨"Trần B", "1950", "012345678901", "", ""⟩ : Person).id_number.data,
          isDigitCh c = true) :=
  c8_id_digit_class c8Line ⟨"Trần B", "1950", "012345678901", "", ""⟩ (by decide)

/-! ## Claim C4: issue-date keyword orderings -/

def specLineNgayCap : String :=
  "Hộ ông: Nguyễn A, sinh năm 1938, số CMND 220515369, ngày cấp 04/01/1997, nơi cấp công an tỉnh Phú Yên"

def specLineCapNgay : String :=
  "Hộ ông: Nguyễn A, sinh năm 1938, số CMND 220515369, cấp ngày 04/01/1997, nơi cấp công an tỉnh Phú Yên"

/-- C4 counterexample: the `app.py` person extractor, whose issue-date
pattern is `(?:cấp|cap)\s+ngày\s+<date>` only, returns a Person from
the spec's concrete line (which uses the `ngày cấp` ordering) with an
empty `issue_date` instead of `"04/01/1997"`. -/
theorem c4_counterexample :
    parse_person_app specLineNgayCap =
      some ⟨"Nguyễn A", "1938", "220515369", ""⟩ ∧
    (some (AppPerson.mk "Nguyễn A" "1938" "220515369" "")).any
      (fun q => q.issue_date = "04/01/1997") = false := by decide

/-- C4 (amended): the `xuatdulieu.py` extractor accepts both keyword
orderings — the spec's concrete line (`ngày cấp`) and its `cấp ngày`
variant both yield issue_date `"04/01/1997"` — while the `app.py`
extractor only matches the `cấp ngày` ordering. -/
theorem c4_issue_date_orderings :
    parse_person specLineNgayCap =
      some ⟨"Nguyễn A", "1938", "220515369", "04/01/1997", ""⟩ ∧
    parse_person specLineCapNgay =
      some ⟨"Nguyễn A", "1938", "220515369", "04/01/1997", ""⟩ ∧
    parse_person_app specLineCapNgay =
      some ⟨"Nguyễn A", "1938", "220515369", "04/01/1997"⟩ := by decide

/-! ## Lemmas about the encoding rescuer -/

lemma processToks_ok (conv : Codec)
    (hdet : ∀ t, ∃ csName, conv.detectCharset t = .ok csName) :
    ∀ ts : List (List Char), ∃ r, processToks conv ts = .ok r := by
  intro ts
  induction ts with
  | nil => exact ⟨[], rfl⟩
  | cons t ts ih =>
      obtain ⟨r, hr⟩ := ih
      unfold processToks
      by_cases hw : t.all isWsCh
      · rw [if_pos hw, hr]
        exact ⟨t ++ r, rfl⟩
      · rw [if_neg hw]
        obtain ⟨cs, hcs⟩ := hdet t
        rw [hr, hcs]
        exact ⟨_, rfl⟩

lemma convert_best_allFail (conv : Codec) (s : List Char)
    (h : ∀ cs, conv.convert s "UNICODE" cs = .error ()) :
    convert_best conv s = s := by
  unfold convert_best
  have hfold : ∀ (l : List String) (b : List Char × Nat),
      l.foldl (fun (b : List Char × Nat) cs =>
        match conv.convert s "UNICODE" cs with
        | .error _ => b
        | .ok t => if score_vn t > b.2 then (t, score_vn t) else b) b = b := by
    intro l
    induction l with
    | nil => intro b; rfl
    | cons c cl ih =>
        intro b
        rw [List.foldl_cons]
        have hstep : (match conv.convert s "UNICODE" c with
            | .error _ => b
            | .ok t => if score_vn t > b.2 then (t, score_vn t) else b) = b := by
          rw [h c]
        rw [hstep]
        exact ih b
  rw [hfold]

lemma chunksGo_flatten (l acc : List Char) :
    (chunksGo acc l).flatten = acc.reverse ++ l := by
  induction l generalizing acc with
  | nil =>
      unfold chunksGo
      by_cases h : acc = [] <;> simp [h]
  | cons c cs ih =>
      cases acc with
      | nil =>
          unfold chunksGo
          simpa using ih [c]
      | cons a as =>
          unfold chunksGo
          by_cases h : isWsCh a = isWsCh c
          · rw [if_pos h, ih (c :: a :: as)]
            simp
          · rw [if_neg h]
            simp only [List.flatten_cons]
            rw [ih [c]]
            simp

lemma chunksOf_flatten (l : List Char) : (chunksOf l).flatten = l := by
  unfold chunksOf
  rw [chunksGo_flatten]
  rfl

lemma hasMarker_of_chunk (x t : List Char) (ht : t ∈ chunksOf x)
    (hm : hasMarker x = false) : hasMarker t = false := by
  rw [Bool.eq_false_iff]
  intro habs
  unfold hasMarker at habs hm
  obtain ⟨c, hc, hcm⟩ := List.any_eq_true.mp habs
  have hcx : c ∈ x := by
    rw [← chunksOf_flatten x]
    exact List.mem_flatten.mpr ⟨t, ht, hc⟩
  have := List.any_eq_true.mpr ⟨c, hcx, hcm⟩
  rw [hm] at this
  cases this

lemma processToks_clean (conv : Codec) (ts : List (List Char))
    (hdet : ∀ t ∈ ts, t.all isWsCh = false → conv.detectCharset t = .ok "UNICODE")
    (hm : ∀ t ∈ ts, hasMarker t = false) :
    processToks conv ts = .ok ts.flatten := by
  induction ts with
  | nil => rfl
  | cons t ts ih =>
      have ihv := ih (fun u hu hw => hdet u (by simp [hu]) hw)
        (fun u hu => hm u (by simp [hu]))
      unfold processToks
      by_cases hw : t.all isWsCh
      · rw [if_pos hw, ihv]
        rfl
      · rw [if_neg hw, hdet t (by simp) (by simpa using hw)]
        show Except.bind (Except.ok "UNICODE") _ = _
        simp only [Except.bind]
        rw [if_neg (by simp), hm t (by simp)]
        simp only [Bool.false_eq_true, if_false, ihv]
        rfl

/-! ## Claim C5: the rescuer and codec failures -/

/-- A codec whose `detectCharset` always raises. -/
def failingCodec : Codec := ⟨fun _ => .error (), fun _ _ _ => .error ()⟩

/-- C5 counterexample: `detectCharset` is called outside every
`try/except` in `fix_mixed_to_unicode`, so a codec whose detection
raises makes the rescuer itself raise instead of returning a string. -/
theorem c5_counterexample :
    fix_mixed_to_unicode failingCodec "a".data = .error () := rfl

/-- C5 (amended): conversion failures never escape — every candidate
whose `convert` raises is skipped, and if all candidates fail the token
is returned unchanged; and whenever `detectCharset` does not raise, the
rescuer returns a string for every behaviour of `convert`.  (As stated,
the claim fails: a raising `detectCharset` propagates, see the
counterexample.) -/
theorem c5_rescuer_robustness (conv : Codec) (x : List Char)
    (hdet : ∀ t, ∃ csName, conv.detectCharset t = .ok csName) :
    (∃ r, fix_mixed_to_unicode conv x = .ok r) ∧
    (∀ s, (∀ cs, conv.convert s "UNICODE" cs = .error ()) →
      convert_best conv s = s) := by
  constructor
  · obtain ⟨r, hr⟩ := processToks_ok conv hdet (chunksOf x)
    unfold fix_mixed_to_unicode
    rw [hr]
    exact ⟨_, rfl⟩
  · intro s hs
    exact convert_best_allFail conv s hs

/-- A codec that detects everything as already-Unicode and whose
conversions always fail. -/
def okDetectCodec : Codec := ⟨fun _ => .ok "UNICODE", fun _ _ _ => .error ()⟩

theorem c5_witness :
    (∃ r, fix_mixed_to_unicode okDetectCodec "ab c".data = .ok r) ∧
    (∀ s, (∀ cs, okDetectCodec.convert s "UNICODE" cs = .error ()) →
      convert_best okDetectCodec s = s) :=
  c5_rescuer_robustness okDetectCodec "ab c".data fun _ => ⟨"UNICODE", rfl⟩

/-! ## Claim C6: idempotence of the rescuer -/

/-- A pure, never-raising codec under which the rescuer is not
idempotent: every token is detected as legacy and conversion appends a
character. -/
def appendCodec : Codec :=
  ⟨fun _ => .ok "TCVN3", fun s _ _ => .ok (s ++ ['a'])⟩

/-- C6 counterexample: with the external codec modelled by fixed pure
functions (`detect ≡ TCVN3`, `convert` appends `'a'`),
`rescue (rescue "b") = "baa" ≠ "ba" = rescue "b"`. -/
theorem c6_counterexample :
    fix_mixed_to_unicode appendCodec "b".data = .ok "ba".data ∧
    fix_mixed_to_unicode appendCodec "ba".data = .ok "baa".data ∧
    "baa".data ≠ "ba".data := ⟨rfl, rfl, by decide⟩

/-- C6 (amended): on clean input — every word token detected as
already-Unicode and no mojibake-marker characters — the rescuer returns
its input unchanged, and is therefore idempotent on such inputs.  (Full
idempotence for arbitrary pure codecs fails, see the counterexample.) -/
theorem c6_clean_identity (conv : Codec) (x : List Char)
    (hdet : ∀ t ∈ chunksOf x, t.all isWsCh = false →
      conv.detectCharset t = .ok "UNICODE")
    (hm : hasMarker x = false) :
    fix_mixed_to_unicode conv x = .ok x ∧
    (fix_mixed_to_unicode conv x).bind (fix_mixed_to_unicode conv) =
      fix_mixed_to_unicode conv x := by
  have h1 : fix_mixed_to_unicode conv x = .ok x := by
    unfold fix_mixed_to_unicode
    rw [processToks_clean conv (chunksOf x) hdet
      (fun t ht => hasMarker_of_chunk x t ht hm)]
    rw [chunksOf_flatten]
    show Except.ok (if hasMarker x then _ else x) = Except.ok x
    rw [hm]
    rfl
  refine ⟨h1, ?_⟩
  rw [h1]
  exact h1

/-- A second clean-detecting codec, with a conversion that would
change text if it were ever consulted. -/
def uniDetectCodec : Codec :=
  ⟨fun _ => .ok "UNICODE", fun s _ _ => .ok ('z' :: s)⟩

theorem c6_witness :
    fix_mixed_to_unicode uniDetectCodec "xin chao".data = .ok "xin chao".data ∧
    (fix_mixed_to_unicode uniDetectCodec "xin chao".data).bind
        (fix_mixed_to_unicode uniDetectCodec) =
      fix_mixed_to_unicode uniDetectCodec "xin chao".data :=
  c6_clean_identity uniDetectCodec "xin chao".data (fun _ _ _ => rfl) (by decide)

end AppExcel
